import Mathlib

/-!
Verification of the clap argument-definition and parsing library.

The development shallowly embeds the repository's code:
* `Clap.Fnv` — the FNV-1a style identity hash of `src/util/fnv.rs`;
* `Clap.Tok` — the long-token splitter of `src/parse/raw_long.rs` over byte
  sequences, with the `OsStrExt2` byte helpers modelled from the spec;
* `Clap.KeyM` — the `Key` invocation-key of `src/build/args/arg/key.rs`;
* `Clap.Grp` — the `ArgGroup` builder of `src/build/arg_group.rs`;
* `Clap.Builder` — the `Arg::value_delimiter` builder method of
  `src/build/args/arg.rs`;
* `Clap.Engine` — the matching engine (tokenize / accumulate / override /
  default / validate pipeline), modelled from the spec since the parser
  sources are not part of the repository snapshot.

Machine integers are modelled as `Nat` with explicit reduction modulo `2 ^ 64`
where the Rust code relies on wrapping arithmetic.
-/

namespace Clap

/-! ## Byte-sequence helpers

`OsStrExt2` (the byte-wise helpers used by `raw_long.rs`) is not in the
snapshot; the helpers below are modelled from the spec: a token is "split at
the first `=` if present into key and inline value; the key has leading
hyphens stripped".  They are polymorphic so the same functions serve the
byte-level tokenizer and the character-level engine model. -/

/-- `OsStrExt2::contains_byte`: does the sequence contain the byte? -/
def contains_byte {α : Type} [DecidableEq α] (s : List α) (b : α) : Bool :=
  s.contains b

/-- Modelled from the spec: `OsStrExt2::split_at_byte` splits at the first
occurrence of `b`, excluding `b` itself from both halves; when `b` does not
occur the whole sequence is returned with an empty remainder. -/
def split_at_byte {α : Type} [DecidableEq α] : List α → α → List α × List α
  | [], _ => ([], [])
  | c :: rest, b =>
    if c = b then ([], rest)
    else
      let p := split_at_byte rest b
      (c :: p.1, p.2)

/-- `OsStrExt2::trim_left_matches`: drop every leading occurrence of `b`. -/
def trim_left_matches {α : Type} [DecidableEq α] (s : List α) (b : α) : List α :=
  s.dropWhile (fun c => c = b)

theorem contains_byte_append_self {α : Type} [DecidableEq α] (l1 l2 : List α) (b : α) :
    contains_byte (l1 ++ b :: l2) b = true := by
  simp [contains_byte]

theorem split_at_byte_append {α : Type} [DecidableEq α] (l1 l2 : List α) (b : α)
    (h : ¬ l1.contains b) : split_at_byte (l1 ++ b :: l2) b = (l1, l2) := by
  induction l1 with
  | nil => simp [split_at_byte]
  | cons c rest ih =>
    simp only [List.contains_cons, Bool.or_eq_true, not_or] at h
    have hcb : ¬ c = b := by
      intro hc
      exact h.1 (by simp [hc])
    simp [split_at_byte, hcb, ih h.2]

theorem split_at_byte_not_contains {α : Type} [DecidableEq α] (l : List α) (b : α)
    (h : ¬ l.contains b) : split_at_byte l b = (l, []) := by
  induction l with
  | nil => simp [split_at_byte]
  | cons c rest ih =>
    simp only [List.contains_cons, Bool.or_eq_true, not_or] at h
    have hcb : ¬ c = b := by
      intro hc
      exact h.1 (by simp [hc])
    simp [split_at_byte, hcb, ih h.2]

theorem trim_left_matches_of_head {α : Type} [DecidableEq α] (l : List α) (b : α)
    (h : l.head? ≠ some b) : trim_left_matches l b = l := by
  cases l with
  | nil => rfl
  | cons c rest =>
    have : ¬ c = b := by
      intro hc
      exact h (by simp [hc])
    simp [trim_left_matches, List.dropWhile, this]

end Clap

namespace Clap.Fnv

/-! ## `src/util/fnv.rs` — the identity hash -/

/-- `MAGIC_INIT`: the seed constant of `FnvHasher::new`. -/
def MAGIC_INIT : Nat := 0x811C9DC5

/-- One step of `FnvHasher::write`: `hash = (hash ^ byte).wrapping_mul(0x100000001b3)`
(64-bit wrapping multiplication). -/
def fnvStep (h b : Nat) : Nat := ((h ^^^ b) * 0x100000001b3) % 2 ^ 64

/-- `FnvHasher::write`: fold `fnvStep` over the byte sequence. -/
def fnvWrite (h : Nat) (bs : List Nat) : Nat := bs.foldl fnvStep h

/-- UTF-8 encoding of one scalar value (Rust strings hash their UTF-8 bytes). -/
def utf8Bytes (c : Char) : List Nat :=
  let n := c.toNat
  if n < 0x80 then [n]
  else if n < 0x800 then [0xC0 + n / 0x40, 0x80 + n % 0x40]
  else if n < 0x10000 then
    [0xE0 + n / 0x1000, 0x80 + n / 0x40 % 0x40, 0x80 + n % 0x40]
  else
    [0xF0 + n / 0x40000, 0x80 + n / 0x1000 % 0x40, 0x80 + n / 0x40 % 0x40,
      0x80 + n % 0x40]

/-- The UTF-8 bytes of a string. -/
def strBytes (s : String) : List Nat := s.data.flatMap utf8Bytes

/-- `util::hash` applied to a `&str`: Rust's `Hash for str` feeds the UTF-8
bytes followed by a single `0xff` delimiter byte into the hasher, which starts
at `MAGIC_INIT`. -/
def hash (s : String) : Nat := fnvWrite MAGIC_INIT (strBytes s ++ [0xff])

/-- `HELP_HASH`: precomputed as `hash("help")`. -/
def HELP_HASH : Nat := hash "help"

/-- `VERSION_HASH`: precomputed as `hash("version")`. -/
def VERSION_HASH : Nat := hash "version"

end Clap.Fnv

namespace Clap.Tok

/-! ## `src/parse/raw_long.rs` — long tokens

Raw OS strings are byte sequences (`List Nat`); `45` is `'-'`, `61` is `'='`. -/

/-- `RawLong`: the part before the first `=` (still carrying its leading
hyphens) and the optional inline value. -/
structure RawLong where
  long : List Nat
  value : Option (List Nat)
  deriving DecidableEq

/-- `impl From<RawArg> for RawLong`: if the token contains `=`, split at the
first `=`; the value is the remainder with any further leading `=` trimmed.
Otherwise the whole token is the key part and there is no inline value. -/
def RawLong.fromRaw (oss : List Nat) : RawLong :=
  if contains_byte oss 61 then
    let p := split_at_byte oss 61
    { long := p.1, value := some (trim_left_matches p.2 61) }
  else
    { long := oss, value := none }

/-- `RawLong::key`: the stored key part with leading hyphens stripped. -/
def RawLong.key (r : RawLong) : List Nat := trim_left_matches r.long 45

/-- Token classes produced by the tokenizer. -/
inductive TokenClass where
  | longTok
  | shortTok
  | terminator
  | positional
  deriving DecidableEq

/-- Modelled from the spec: the tokenizer dispatch (not under `src/`).  The
bare token `--` is the terminator; a token starting with `--` and longer than
two bytes is a long token; a token starting with `-` followed by at least one
more byte is a short token; anything else is a positional candidate. -/
def classifyRaw (t : List Nat) : TokenClass :=
  if t = [45, 45] then .terminator
  else if t.take 2 = [45, 45] ∧ 2 < t.length then .longTok
  else if t.head? = some 45 ∧ 1 < t.length then .shortTok
  else .positional

end Clap.Tok

namespace Clap.KeyM

/-! ## `src/build/args/arg/key.rs` — the invocation key -/

/-- `Short`: a single short character (`short.rs` is a newtype over `char`). -/
structure Short where
  c : Char
  deriving DecidableEq

/-- `Position`: a 1-based positional index (`position.rs` wraps a `u64`). -/
structure Position where
  i : Nat
  deriving DecidableEq

/-- Modelled from the spec: `Long` (`arg/key/long.rs` is not under `src/`)
holds zero or one primary long name plus zero or more hidden alias long
names. -/
structure Long where
  primary : Option String
  hidden : List String
  deriving DecidableEq

/-- `Option<Long>::add_long` as used by `Key::long`: sets the primary long
name, creating the `Long` record if absent. -/
def addLong (o : Option Long) (l : String) : Option Long :=
  match o with
  | none => some { primary := some l, hidden := [] }
  | some lg => some { lg with primary := some l }

/-- `Option<Long>::add_hidden_long` as used by `Key::hidden_long`: appends a
hidden alias, creating the `Long` record if absent. -/
def addHiddenLong (o : Option Long) (l : String) : Option Long :=
  match o with
  | none => some { primary := none, hidden := [l] }
  | some lg => some { lg with hidden := lg.hidden ++ [l] }

/-- `Key`: zero or one short, zero or one long record, zero or one index. -/
structure Key where
  short : Option Short
  long : Option Long
  index : Option Position
  deriving DecidableEq

/-- `Key::new`. -/
def Key.new : Key := { short := none, long := none, index := none }

/-- `Key::has_switch`. -/
def Key.has_switch (k : Key) : Bool := k.short.isSome || k.long.isSome

/-- `Key::is_positional`. -/
def Key.is_positional (k : Key) : Bool := k.index.isSome || !k.has_switch

/-- `Key::short` (the setter). -/
def Key.set_short (k : Key) (s : Char) : Key := { k with short := some ⟨s⟩ }

/-- `Key::long` (the setter). -/
def Key.set_long (k : Key) (l : String) : Key := { k with long := addLong k.long l }

/-- `Key::index` (the setter). -/
def Key.set_index (k : Key) (i : Nat) : Key := { k with index := some ⟨i⟩ }

/-- `Key::hidden_long` (the setter). -/
def Key.set_hidden_long (k : Key) (l : String) : Key :=
  { k with long := addHiddenLong k.long l }

/-- One call to a `Key` setter. -/
inductive KeyOp where
  | short (c : Char)
  | long (l : String)
  | index (i : Nat)
  | hidden_long (l : String)

/-- Apply one setter call. -/
def Key.apply (k : Key) : KeyOp → Key
  | .short c => k.set_short c
  | .long l => k.set_long l
  | .index i => k.set_index i
  | .hidden_long l => k.set_hidden_long l

/-- The key reached from `Key::new` by a sequence of setter calls. -/
def Key.build (ops : List KeyOp) : Key := ops.foldl Key.apply Key.new

end Clap.KeyM

namespace Clap.Grp

/-! ## `src/build/arg_group.rs` — argument groups -/

/-- `ArgGroup`: id, member argument ids, `required`, `requires`, `conflicts`,
`multiple`. -/
structure ArgGroup where
  id : Nat
  args : List Nat
  required : Bool
  requires : Option (List Nat)
  conflicts : Option (List Nat)
  multiple : Bool
  deriving DecidableEq

/-- `ArgGroup::new`: hash the name, all rule sets empty. -/
def ArgGroup.new (name : String) : ArgGroup :=
  { id := Clap.Fnv.hash name
    args := []
    required := false
    requires := none
    conflicts := none
    multiple := false }

/-- `ArgGroup::arg`: hash the member name; the `assert!(self.id != n)` panic is
`none`, otherwise the hash is pushed onto `args`. -/
def ArgGroup.arg (g : ArgGroup) (n : String) : Option ArgGroup :=
  let h := Clap.Fnv.hash n
  if g.id = h then none
  else some { g with args := g.args ++ [h] }

/-- `ArgGroup::args`: `for n in ns { self = self.arg(n) }`, the panic
propagating. -/
def ArgGroup.addArgs (g : ArgGroup) (ns : List String) : Option ArgGroup :=
  ns.foldlM ArgGroup.arg g

end Clap.Grp

namespace Clap.Builder

/-! ## `src/build/args/arg.rs` — the `Arg` builder (value-delimiter part)

Only the fields the claims touch are carried.  The delimiter storage
(`arg/value.rs`) is not under `src/`; per the spec the value spec holds an
"optional delimiter character for splitting a single token into multiple
values". -/

/-- The builder state relevant to `Arg::value_delimiter`. -/
structure Arg where
  id : Nat
  val_delim : Option Char
  deriving DecidableEq

/-- `Arg::new`: hash the name; no delimiter configured. -/
def Arg.new (name : String) : Arg := { id := Clap.Fnv.hash name, val_delim := none }

/-- `Arg::value_delimiter`: `self.val_delim = Some(d.chars().nth(0).expect(..))`
— the first character of `d`, the `expect` panic (`none`) firing exactly when
`d` has no first character. -/
def Arg.value_delimiter (a : Arg) (d : String) : Option Arg :=
  match d.data.head? with
  | none => none
  | some c => some { a with val_delim := some c }

end Clap.Builder

namespace Clap.Engine

/-! ## The matching engine, modelled from the spec

The parser sources are not part of the repository snapshot (only the builder
declarations and their documented behaviour are under `src/`), so the engine
below is modelled from the spec, sections 4.1–4.2 and 7: tokens are classified
as in §4.1; occurrences and values accumulate per argument id in command-line
order; re-encountering a non-multiple argument with no self-override fails
with `UnexpectedMultipleUsage`; finalization applies overrides (self-override
collapsing a non-multiple argument to its last occurrence, a no-op for
multiple-occurrence arguments, erasure for distinct arguments), then defaults,
then the required / conflicts / requires checks in that order, reporting all
unmet required entities together.  Tokens and values are character lists; the
model covers long-invoked (`--name` / `--name=value`) arguments. -/

/-- One argument definition as the engine consumes it: identity, primary long
name, whether it takes a value, the `MultipleOccurrences` setting, the
`Required` setting, the rule sets as lists of ids, the value delimiter and the
plain default value. -/
structure ArgDef where
  id : Nat
  long : Option (List Char)
  takes_value : Bool
  multiple_occurrences : Bool
  required : Bool
  required_unless : List Nat
  conflicts : List Nat
  overrides : List Nat
  requires : List Nat
  val_delim : Option Char
  default_value : Option (List Char)
  deriving DecidableEq

/-- The per-argument accumulator of `MatchState`: occurrence count and the
recorded values in insertion order. -/
structure MatchedArg where
  id : Nat
  occurs : Nat
  vals : List (List Char)
  deriving DecidableEq

/-- `MatchState`: one accumulator per used argument id, in the order first
encountered. -/
structure MatchState where
  entries : List MatchedArg
  deriving DecidableEq

/-- The error taxonomy of §7 restricted to what the model can produce;
`MissingRequiredArgument` carries every unmet required id, reported
together. -/
inductive ErrorKind where
  | UnknownArgument
  | MissingRequiredArgument (ids : List Nat)
  | ArgumentConflict
  | UnexpectedMultipleUsage
  | TooFewValues
  deriving DecidableEq

/-- A parse outcome: a typed error or the finalized match state. -/
inductive ParseResult where
  | err (e : ErrorKind)
  | ok (st : MatchState)
  deriving DecidableEq

/-- Was the argument id used (it has an accumulator, also via defaults)? -/
def MatchState.used (st : MatchState) (id : Nat) : Bool :=
  st.entries.any (fun m => m.id = id)

/-- The recorded occurrence count of an id (0 when never recorded). -/
def MatchState.occursOf (st : MatchState) (id : Nat) : Nat :=
  match st.entries.find? (fun m => m.id = id) with
  | some m => m.occurs
  | none => 0

/-- The recorded values of an id, in insertion order. -/
def MatchState.valuesOf (st : MatchState) (id : Nat) : List (List Char) :=
  match st.entries.find? (fun m => m.id = id) with
  | some m => m.vals
  | none => []

/-- Record one occurrence of `id` carrying `vals`: bump the existing
accumulator or append a fresh one. -/
def MatchState.record (st : MatchState) (id : Nat) (vals : List (List Char)) :
    MatchState :=
  if st.entries.any (fun m => m.id = id) then
    { entries := st.entries.map (fun m =>
        if m.id = id then { m with occurs := m.occurs + 1, vals := m.vals ++ vals }
        else m) }
  else
    { entries := st.entries ++ [{ id := id, occurs := 1, vals := vals }] }

/-- Split an inline value on the configured delimiter (§3 ValueSpec), one
value when no delimiter is configured. -/
def splitOn (s : List Char) (d : Char) : List (List Char) :=
  match s with
  | [] => [[]]
  | c :: rest =>
    match splitOn rest d with
    | [] => [[]]
    | h :: tl => if c = d then [] :: h :: tl else (c :: h) :: tl

/-- The values one occurrence of `a` contributes for the raw value `v`. -/
def splitVals (a : ArgDef) (v : List Char) : List (List Char) :=
  match a.val_delim with
  | some d => splitOn v d
  | none => [v]

/-- What handling a long token needs next: the matched definition and either
the values carried inline (a flag carries `some []`) or `none` when the value
must be pulled from the next raw token. -/
inductive LongHit where
  | failed (e : ErrorKind)
  | inlineVals (a : ArgDef) (vals : List (List Char))
  | needsValue (a : ArgDef)
  deriving DecidableEq

/-- Handle one long token against the definitions: split off the inline value
as in §4.1, strip the key's leading hyphens, look the key up among the long
names; an unknown key is `UnknownArgument`; re-encountering an argument at its
occurrence limit with no override rule naming itself is
`UnexpectedMultipleUsage` (§4.2). -/
def longHit (args : List ArgDef) (st : MatchState) (t : List Char) : LongHit :=
  let hadEq := contains_byte t '='
  let keyPart := if hadEq then (split_at_byte t '=').1 else t
  let inlineVal :=
    if hadEq then some (trim_left_matches (split_at_byte t '=').2 '=') else none
  let key := trim_left_matches keyPart '-'
  match args.find? (fun a => a.long = some key) with
  | none => .failed .UnknownArgument
  | some a =>
    if 1 ≤ st.occursOf a.id ∧ ¬ a.multiple_occurrences ∧ ¬ a.overrides.contains a.id
    then .failed .UnexpectedMultipleUsage
    else if a.takes_value then
      match inlineVal with
      | some v => .inlineVals a (splitVals a v)
      | none => .needsValue a
    else .inlineVals a []

/-- Consume the token stream left to right (§4.1–§4.2): long tokens record an
occurrence (pulling the next raw token when the option has no inline value);
the bare `--` terminator makes the rest positional; the model declares no
short or positional arguments, so those candidates are `UnknownArgument`. -/
def parseTokens (args : List ArgDef) (st : MatchState) :
    List (List Char) → ParseResult
  | [] => .ok st
  | t :: rest =>
    if t = ['-', '-'] then
      if rest.isEmpty then .ok st else .err .UnknownArgument
    else if t.take 2 = ['-', '-'] ∧ 2 < t.length then
      match longHit args st t with
      | .failed e => .err e
      | .inlineVals a vals => parseTokens args (st.record a.id vals) rest
      | .needsValue a =>
        match rest with
        | [] => .err .TooFewValues
        | r :: rs => parseTokens args (st.record a.id (splitVals a r)) rs
    else .err .UnknownArgument

/-- Erase an argument's accumulator entirely, as if never supplied. -/
def MatchState.erase (st : MatchState) (id : Nat) : MatchState :=
  { entries := st.entries.filter (fun m => ¬ m.id = id) }

/-- Collapse an accumulator to only its last recorded value with occurrence
count 1 (§4.2 step 1, non-multiple self-override). -/
def MatchState.collapseToLast (st : MatchState) (id : Nat) : MatchState :=
  { entries := st.entries.map (fun m =>
      if m.id = id then
        { m with
          occurs := 1
          vals := (match m.vals.getLast? with
                   | some v => [v]
                   | none => []) }
      else m) }

/-- One override target of `a` applied to the state (§4.2 step 1): a
self-override is a no-op when `a` allows multiple occurrences and otherwise
collapses `a` to its last occurrence; a used distinct target is erased. -/
def overrideStep (a : ArgDef) (st : MatchState) (y : Nat) : MatchState :=
  if y = a.id then
    if a.multiple_occurrences then st else st.collapseToLast a.id
  else if st.used y then st.erase y
  else st

/-- §4.2 step 1: for every used argument `X`, apply every target of its
overrides list. -/
def applyOverrides (args : List ArgDef) (st : MatchState) : MatchState :=
  args.foldl (fun st a =>
    if st.used a.id then a.overrides.foldl (overrideStep a) st else st) st

/-- One argument's plain default applied to a state where it is unset (§4.2
step 2), with occurrence count 0. -/
def defaultStep (st : MatchState) (a : ArgDef) : MatchState :=
  match a.default_value with
  | some v =>
    if st.used a.id then st
    else { entries := st.entries ++ [{ id := a.id, occurs := 0, vals := [v] }] }
  | none => st

/-- §4.2 step 2 (restricted to plain defaults): apply `default_value` to any
argument still unset. -/
def applyDefaults (args : List ArgDef) (st : MatchState) : MatchState :=
  args.foldl defaultStep st

/-- §4.2 step 4: the ids of every argument marked required whose requirement
is not suppressed by a `required_unless` condition and that was left unused
after defaults. -/
def missingRequired (args : List ArgDef) (st : MatchState) : List Nat :=
  (args.filter (fun a =>
    a.required ∧ ¬ a.required_unless.any (fun u => st.used u) ∧ ¬ st.used a.id)).map
    (fun a => a.id)

/-- §4.2 step 5: some used argument declares a conflict with a used id (the
declaration is one-sided; both orders of use fire it). -/
def hasConflict (args : List ArgDef) (st : MatchState) : Bool :=
  args.any (fun a => st.used a.id ∧ a.conflicts.any (fun c => st.used c))

/-- §4.2 step 6: ids required by a used argument's `requires` rules but left
unused. -/
def missingRequires (args : List ArgDef) (st : MatchState) : List Nat :=
  (args.filter (fun a => st.used a.id)).flatMap
    (fun a => a.requires.filter (fun r => ¬ st.used r))

/-- §4.2 steps 1–6 after the tokens are consumed: overrides, then defaults,
then required / conflicts / requires in order, all unmet required entities
reported in one error. -/
def finalize (args : List ArgDef) (st : MatchState) : ParseResult :=
  let st1 := applyDefaults args (applyOverrides args st)
  let missing := missingRequired args st1
  if ¬ missing.isEmpty then .err (.MissingRequiredArgument missing)
  else if hasConflict args st1 then .err .ArgumentConflict
  else
    let missReq := missingRequires args st1
    if ¬ missReq.isEmpty then .err (.MissingRequiredArgument missReq)
    else .ok st1

/-- The whole pipeline on a raw argument vector. -/
def parseArgv (args : List ArgDef) (argv : List (List Char)) : ParseResult :=
  match parseTokens args { entries := [] } argv with
  | .err e => .err e
  | .ok st => finalize args st

/-- A long-invoked flag definition with a conflict list. -/
def flagDef (name : List Char) (id : Nat) (conflicts : List Nat) : ArgDef :=
  { id := id
    long := some name
    takes_value := false
    multiple_occurrences := false
    required := false
    required_unless := []
    conflicts := conflicts
    overrides := []
    requires := []
    val_delim := none
    default_value := none }

/-- A long-invoked option that overrides itself (`overrides_with` naming its
own id) and does not allow multiple occurrences. -/
def selfOverrideOpt (name : List Char) (id : Nat) : ArgDef :=
  { id := id
    long := some name
    takes_value := true
    multiple_occurrences := false
    required := false
    required_unless := []
    conflicts := []
    overrides := [id]
    requires := []
    val_delim := none
    default_value := none }

/-- A long-invoked multiple-occurrences flag that overrides itself. -/
def selfOverrideFlag (name : List Char) (id : Nat) : ArgDef :=
  { id := id
    long := some name
    takes_value := false
    multiple_occurrences := true
    required := false
    required_unless := []
    conflicts := []
    overrides := [id]
    requires := []
    val_delim := none
    default_value := none }

end Clap.Engine

namespace Clap.Engine

/-! ### Step lemmas about the engine -/

theorem record_absent (st : MatchState) (id : Nat) (vals : List (List Char))
    (h : st.used id = false) :
    st.record id vals =
      { entries := st.entries ++ [{ id := id, occurs := 1, vals := vals }] } := by
  have h' : st.entries.any (fun m => m.id = id) = false := h
  rw [MatchState.record, if_neg (by simp [h'])]

theorem record_single (id n : Nat) (acc vals : List (List Char)) :
    MatchState.record { entries := [{ id := id, occurs := n, vals := acc }] } id vals =
      { entries := [{ id := id, occurs := n + 1, vals := acc ++ vals }] } := by
  simp [MatchState.record]

theorem occursOf_single (i n : Nat) (acc : List (List Char)) :
    MatchState.occursOf { entries := [{ id := i, occurs := n, vals := acc }] } i = n := by
  simp [MatchState.occursOf]

theorem valuesOf_single (i n : Nat) (acc : List (List Char)) :
    MatchState.valuesOf { entries := [{ id := i, occurs := n, vals := acc }] } i = acc := by
  simp [MatchState.valuesOf]

theorem trim_double_hyphen (n : List Char) (hh : n.head? ≠ some '-') :
    trim_left_matches ('-' :: '-' :: n) '-' = n := by
  show List.dropWhile _ _ = n
  rw [List.dropWhile_cons, if_pos (by decide), List.dropWhile_cons, if_pos (by decide)]
  exact trim_left_matches_of_head n '-' hh

theorem contains_cons_hyphens (n : List Char) :
    (('-' :: '-' :: n).contains '=') = n.contains '=' := by
  simp [List.contains_cons]

theorem longHit_flag (args : List ArgDef) (st : MatchState) (n : List Char) (a : ArgDef)
    (hn : ¬ n.contains '=' = true) (hh : n.head? ≠ some '-')
    (hfind : args.find? (fun x => x.long = some n) = some a)
    (hok : ¬ (1 ≤ st.occursOf a.id ∧ ¬ a.multiple_occurrences ∧
      ¬ a.overrides.contains a.id))
    (hflag : a.takes_value = false) :
    longHit args st ('-' :: '-' :: n) = .inlineVals a [] := by
  have hc : contains_byte ('-' :: '-' :: n) '=' = false := by
    unfold contains_byte
    rw [contains_cons_hyphens]
    exact Bool.not_eq_true _ |>.mp hn
  rw [longHit]
  simp only [hc, Bool.false_eq_true, if_false, trim_double_hyphen n hh, hfind,
    if_neg hok, hflag, Bool.false_eq_true]

theorem longHit_inline (args : List ArgDef) (st : MatchState) (n v : List Char)
    (a : ArgDef)
    (hn : ¬ n.contains '=' = true) (hh : n.head? ≠ some '-')
    (hv : v.head? ≠ some '=')
    (hfind : args.find? (fun x => x.long = some n) = some a)
    (hok : ¬ (1 ≤ st.occursOf a.id ∧ ¬ a.multiple_occurrences ∧
      ¬ a.overrides.contains a.id))
    (htv : a.takes_value = true) :
    longHit args st ('-' :: '-' :: (n ++ '=' :: v)) = .inlineVals a (splitVals a v) := by
  have hnc : ¬ (('-' :: '-' :: n).contains '=') = true := by
    rw [contains_cons_hyphens]
    exact hn
  have hc : contains_byte ('-' :: '-' :: (n ++ '=' :: v)) '=' = true := by
    have h1 := contains_byte_append_self ('-' :: '-' :: n) v '='
    simpa using h1
  have hsplit : split_at_byte ('-' :: '-' :: (n ++ '=' :: v)) '=' = ('-' :: '-' :: n, v) := by
    have h1 := split_at_byte_append ('-' :: '-' :: n) v '=' hnc
    simpa using h1
  rw [longHit]
  simp only [hc, if_true, hsplit, trim_double_hyphen n hh, hfind, if_neg hok, htv,
    trim_left_matches_of_head v '=' hv, if_true]

theorem parseTokens_cons_long (args : List ArgDef) (st : MatchState) (r : List Char)
    (rest : List (List Char)) (a : ArgDef) (vals : List (List Char))
    (hr : r ≠ [])
    (h : longHit args st ('-' :: '-' :: r) = .inlineVals a vals) :
    parseTokens args st (('-' :: '-' :: r) :: rest) =
      parseTokens args (st.record a.id vals) rest := by
  have h1 : ¬ ('-' :: '-' :: r) = ['-', '-'] := by simpa using hr
  have h2 : ('-' :: '-' :: r).take 2 = ['-', '-'] := rfl
  have h3 : 2 < ('-' :: '-' :: r).length := by
    have : 0 < r.length := List.length_pos.mpr hr
    simp only [List.length_cons]
    omega
  rw [parseTokens, if_neg h1, if_pos ⟨h2, h3⟩, h]

end Clap.Engine

namespace Clap.Engine

theorem parse_self_opt_loop (name : List Char) (id : Nat)
    (hn : ¬ name.contains '=' = true) (hh : name.head? ≠ some '-')
    (vs : List (List Char)) (hv : ∀ v ∈ vs, v.head? ≠ some '=')
    (n : Nat) (acc : List (List Char)) :
    parseTokens [selfOverrideOpt name id]
      { entries := [{ id := id, occurs := n, vals := acc }] }
      (vs.map (fun v => '-' :: '-' :: (name ++ '=' :: v))) =
      .ok { entries := [{ id := id, occurs := n + vs.length, vals := acc ++ vs }] } := by
  induction vs generalizing n acc with
  | nil => simp [parseTokens]
  | cons v vs ih =>
    have hfind : [selfOverrideOpt name id].find?
        (fun x => x.long = some name) = some (selfOverrideOpt name id) :=
      List.find?_cons_of_pos _ (by simp [selfOverrideOpt])
    have hok : ¬ (1 ≤ MatchState.occursOf
          { entries := [{ id := id, occurs := n, vals := acc }] } (selfOverrideOpt name id).id ∧
        ¬ (selfOverrideOpt name id).multiple_occurrences ∧
        ¬ (selfOverrideOpt name id).overrides.contains (selfOverrideOpt name id).id) := by
      intro hcon
      exact hcon.2.2 (by simp [selfOverrideOpt])
    have hhit := longHit_inline [selfOverrideOpt name id] _ name v (selfOverrideOpt name id)
      hn hh (hv v (by simp)) hfind hok rfl
    have hstep := parseTokens_cons_long [selfOverrideOpt name id] _ (name ++ '=' :: v)
      (vs.map (fun v => '-' :: '-' :: (name ++ '=' :: v))) (selfOverrideOpt name id)
      (splitVals (selfOverrideOpt name id) v) (by simp) hhit
    rw [List.map_cons, hstep]
    have hid : (selfOverrideOpt name id).id = id := rfl
    have hsv : splitVals (selfOverrideOpt name id) v = [v] := rfl
    rw [hid, hsv, record_single]
    rw [ih (fun w hw => hv w (by simp [hw])) (n + 1) (acc ++ [v])]
    simp [List.append_assoc]
    omega

theorem parse_self_flag_loop (name : List Char) (id : Nat)
    (hn : ¬ name.contains '=' = true) (hh : name.head? ≠ some '-') (hne : name ≠ [])
    (m n : Nat) :
    parseTokens [selfOverrideFlag name id]
      { entries := [{ id := id, occurs := n, vals := [] }] }
      (List.replicate m ('-' :: '-' :: name)) =
      .ok { entries := [{ id := id, occurs := n + m, vals := [] }] } := by
  induction m generalizing n with
  | zero => simp [parseTokens]
  | succ m ih =>
    have hfind : [selfOverrideFlag name id].find?
        (fun x => x.long = some name) = some (selfOverrideFlag name id) :=
      List.find?_cons_of_pos _ (by simp [selfOverrideFlag])
    have hok : ¬ (1 ≤ MatchState.occursOf
          { entries := [{ id := id, occurs := n, vals := [] }] } (selfOverrideFlag name id).id ∧
        ¬ (selfOverrideFlag name id).multiple_occurrences ∧
        ¬ (selfOverrideFlag name id).overrides.contains (selfOverrideFlag name id).id) := by
      intro hcon
      exact hcon.2.1 (by simp [selfOverrideFlag])
    have hhit := longHit_flag [selfOverrideFlag name id] _ name (selfOverrideFlag name id)
      hn hh hfind hok rfl
    have hstep := parseTokens_cons_long [selfOverrideFlag name id] _ name
      (List.replicate m ('-' :: '-' :: name)) (selfOverrideFlag name id) [] hne hhit
    rw [List.replicate_succ, hstep]
    have hid : (selfOverrideFlag name id).id = id := rfl
    rw [hid, record_single]
    simp only [List.append_nil]
    rw [ih (n + 1)]
    simp
    omega

theorem finalize_self_opt (name : List Char) (id N : Nat) (vs : List (List Char))
    (l : List Char) (hl : vs.getLast? = some l) :
    finalize [selfOverrideOpt name id]
      { entries := [{ id := id, occurs := N, vals := vs }] } =
      .ok { entries := [{ id := id, occurs := 1, vals := [l] }] } := by
  simp [finalize, applyOverrides, overrideStep, applyDefaults, defaultStep, selfOverrideOpt, MatchState.used,
    MatchState.collapseToLast, hl, missingRequired, hasConflict, missingRequires]

theorem finalize_self_flag (name : List Char) (id N : Nat) :
    finalize [selfOverrideFlag name id]
      { entries := [{ id := id, occurs := N, vals := [] }] } =
      .ok { entries := [{ id := id, occurs := N, vals := [] }] } := by
  simp [finalize, applyOverrides, overrideStep, applyDefaults, defaultStep, selfOverrideFlag, MatchState.used,
    missingRequired, hasConflict, missingRequires]

end Clap.Engine

namespace Clap.Engine

theorem record_empty (id : Nat) (vals : List (List Char)) :
    MatchState.record { entries := [] } id vals =
      { entries := [{ id := id, occurs := 1, vals := vals }] } := by
  simp [MatchState.record]

theorem occursOf_empty (id : Nat) : MatchState.occursOf { entries := [] } id = 0 := by
  simp [MatchState.occursOf]

end Clap.Engine

namespace Clap.Claims

open Clap.Engine

/-- C2: an option that does not allow multiple occurrences and declares
`overrides_with` naming itself, supplied N ≥ 1 times (`--name=value` each
time), yields a successful parse in which its occurrence count is 1 and its
recorded value is the last-supplied value.  Spec-modelled: the engine is
`Clap.Engine`, built from the spec because the parser sources are not in the
snapshot. -/
theorem overrides_self_opt_collapses (name : List Char) (id : Nat)
    (vs : List (List Char))
    (hn : ¬ name.contains '=' = true) (hh : name.head? ≠ some '-')
    (hv : ∀ v ∈ vs, v.head? ≠ some '=') (hvs : vs ≠ []) :
    parseArgv [selfOverrideOpt name id]
      (vs.map (fun v => '-' :: '-' :: (name ++ '=' :: v))) =
      .ok { entries := [{ id := id, occurs := 1, vals := [vs.getLast hvs] }] } ∧
    MatchState.occursOf
      { entries := [{ id := id, occurs := 1, vals := [vs.getLast hvs] }] } id = 1 ∧
    MatchState.valuesOf
      { entries := [{ id := id, occurs := 1, vals := [vs.getLast hvs] }] } id =
      [vs.getLast hvs] := by
  refine ⟨?_, occursOf_single id 1 [vs.getLast hvs], valuesOf_single id 1 [vs.getLast hvs]⟩
  match vs, hvs with
  | v :: vs', _ =>
    have hfind : [selfOverrideOpt name id].find?
        (fun x => x.long = some name) = some (selfOverrideOpt name id) :=
      List.find?_cons_of_pos _ (by simp [selfOverrideOpt])
    have hok : ¬ (1 ≤ MatchState.occursOf { entries := [] } (selfOverrideOpt name id).id ∧
        ¬ (selfOverrideOpt name id).multiple_occurrences ∧
        ¬ (selfOverrideOpt name id).overrides.contains (selfOverrideOpt name id).id) := by
      intro hcon
      rw [occursOf_empty] at hcon
      omega
    have hhit := longHit_inline [selfOverrideOpt name id] { entries := [] } name v
      (selfOverrideOpt name id) hn hh (hv v (by simp)) hfind hok rfl
    have hstep := parseTokens_cons_long [selfOverrideOpt name id] { entries := [] }
      (name ++ '=' :: v) (vs'.map (fun v => '-' :: '-' :: (name ++ '=' :: v)))
      (selfOverrideOpt name id) (splitVals (selfOverrideOpt name id) v) (by simp) hhit
    have hid : (selfOverrideOpt name id).id = id := rfl
    have hsv : splitVals (selfOverrideOpt name id) v = [v] := rfl
    rw [hid, hsv, record_empty] at hstep
    have hloop := parse_self_opt_loop name id hn hh vs'
      (fun w hw => hv w (by simp [hw])) 1 [v]
    have hparse : parseTokens [selfOverrideOpt name id] { entries := [] }
        ((v :: vs').map (fun v => '-' :: '-' :: (name ++ '=' :: v))) =
        .ok { entries := [{ id := id, occurs := 1 + vs'.length, vals := [v] ++ vs' }] } := by
      rw [List.map_cons, hstep, hloop]
    rw [parseArgv, hparse]
    exact finalize_self_opt name id (1 + vs'.length) ([v] ++ vs')
      ((v :: vs').getLast (by simp))
      (by
        have h1 : [v] ++ vs' = v :: vs' := by simp
        rw [h1]
        exact List.getLast?_eq_getLast (v :: vs') (by simp))

/-- Witness for C2: `--opt=x --opt=y --opt=z` on a self-overriding
non-multiple option parses successfully with occurrence count 1 and the single
value `z`. -/
theorem overrides_self_opt_collapses_witness :
    parseArgv [selfOverrideOpt "opt".toList 1]
      ([['x'], ['y'], ['z']].map (fun v => '-' :: '-' :: ("opt".toList ++ '=' :: v))) =
      .ok { entries := [{ id := 1, occurs := 1, vals := [['z']] }] } :=
  (overrides_self_opt_collapses "opt".toList 1 [['x'], ['y'], ['z']]
    (by decide) (by decide) (by decide) (by decide)).1

/-- C3: a flag that allows multiple occurrences and declares `overrides_with`
naming itself, supplied N ≥ 1 times, yields occurrence count N: the
self-override is a no-op for multiple-occurrence arguments.  Spec-modelled:
the engine is `Clap.Engine`. -/
theorem overrides_self_multi_flag_noop (name : List Char) (id n : Nat)
    (hn : ¬ name.contains '=' = true) (hh : name.head? ≠ some '-') (hne : name ≠ [])
    (hpos : 1 ≤ n) :
    parseArgv [selfOverrideFlag name id] (List.replicate n ('-' :: '-' :: name)) =
      .ok { entries := [{ id := id, occurs := n, vals := [] }] } ∧
    MatchState.occursOf { entries := [{ id := id, occurs := n, vals := [] }] } id = n := by
  refine ⟨?_, occursOf_single id n []⟩
  match n, hpos with
  | m + 1, _ =>
    have hfind : [selfOverrideFlag name id].find?
        (fun x => x.long = some name) = some (selfOverrideFlag name id) :=
      List.find?_cons_of_pos _ (by simp [selfOverrideFlag])
    have hok : ¬ (1 ≤ MatchState.occursOf { entries := [] } (selfOverrideFlag name id).id ∧
        ¬ (selfOverrideFlag name id).multiple_occurrences ∧
        ¬ (selfOverrideFlag name id).overrides.contains (selfOverrideFlag name id).id) := by
      intro hcon
      rw [occursOf_empty] at hcon
      omega
    have hhit := longHit_flag [selfOverrideFlag name id] { entries := [] } name
      (selfOverrideFlag name id) hn hh hfind hok rfl
    have hstep := parseTokens_cons_long [selfOverrideFlag name id] { entries := [] }
      name (List.replicate m ('-' :: '-' :: name)) (selfOverrideFlag name id) [] hne hhit
    have hid : (selfOverrideFlag name id).id = id := rfl
    rw [hid, record_empty] at hstep
    have hloop := parse_self_flag_loop name id hn hh hne m 1
    have hparse : parseTokens [selfOverrideFlag name id] { entries := [] }
        (List.replicate (m + 1) ('-' :: '-' :: name)) =
        .ok { entries := [{ id := id, occurs := 1 + m, vals := [] }] } := by
      rw [List.replicate_succ, hstep, hloop]
    rw [Nat.add_comm 1 m] at hparse
    rw [parseArgv, hparse]
    exact finalize_self_flag name id (m + 1)

/-- Witness for C3: `--flag` supplied four times on a self-overriding
multiple-occurrences flag parses successfully with occurrence count 4. -/
theorem overrides_self_multi_flag_noop_witness :
    parseArgv [selfOverrideFlag "flag".toList 2]
      (List.replicate 4 ('-' :: '-' :: "flag".toList)) =
      .ok { entries := [{ id := 2, occurs := 4, vals := [] }] } :=
  (overrides_self_multi_flag_noop "flag".toList 2 4
    (by decide) (by decide) (by decide) (by decide)).1

end Clap.Claims

namespace Clap.Engine

theorem parse_two_flags (args : List ArgDef) (n1 n2 : List Char) (d1 d2 : ArgDef)
    (hne1 : n1 ≠ []) (hne2 : n2 ≠ [])
    (hn1 : ¬ n1.contains '=' = true) (hn2 : ¬ n2.contains '=' = true)
    (hh1 : n1.head? ≠ some '-') (hh2 : n2.head? ≠ some '-')
    (hfind1 : args.find? (fun x => x.long = some n1) = some d1)
    (hfind2 : args.find? (fun x => x.long = some n2) = some d2)
    (htv1 : d1.takes_value = false) (htv2 : d2.takes_value = false)
    (hid : ¬ d1.id = d2.id) :
    parseTokens args { entries := [] } [('-' :: '-' :: n1), ('-' :: '-' :: n2)] =
      .ok { entries := [{ id := d1.id, occurs := 1, vals := [] },
                        { id := d2.id, occurs := 1, vals := [] }] } := by
  have h1 := longHit_flag args { entries := [] } n1 d1 hn1 hh1 hfind1
    (by
      intro hcon
      rw [occursOf_empty] at hcon
      omega) htv1
  have hstep1 := parseTokens_cons_long args { entries := [] } n1 [('-' :: '-' :: n2)]
    d1 [] hne1 h1
  rw [record_empty] at hstep1
  have hocc2 : MatchState.occursOf
      { entries := [{ id := d1.id, occurs := 1, vals := [] }] } d2.id = 0 := by
    simp [MatchState.occursOf, hid]
  have h2 := longHit_flag args { entries := [{ id := d1.id, occurs := 1, vals := [] }] }
    n2 d2 hn2 hh2 hfind2
    (by
      intro hcon
      rw [hocc2] at hcon
      omega) htv2
  have hstep2 := parseTokens_cons_long args
    { entries := [{ id := d1.id, occurs := 1, vals := [] }] } n2 [] d2 [] hne2 h2
  have hrec2 : MatchState.record
      { entries := [{ id := d1.id, occurs := 1, vals := [] }] } d2.id [] =
      { entries := [{ id := d1.id, occurs := 1, vals := [] },
                    { id := d2.id, occurs := 1, vals := [] }] } := by
    rw [record_absent _ _ _ (by simp [MatchState.used, hid])]
    rfl
  rw [hstep1, hstep2, hrec2]
  rfl

theorem finalize_pair_conflict_fst (na nb : List Char) (ia ib i1 i2 : Nat)
    (hu : i1 = ia ∨ i2 = ia) (hv : i1 = ib ∨ i2 = ib) :
    finalize [flagDef na ia [ib], flagDef nb ib []]
      { entries := [{ id := i1, occurs := 1, vals := [] },
                    { id := i2, occurs := 1, vals := [] }] } = .err .ArgumentConflict := by
  have hua : MatchState.used
      { entries := [{ id := i1, occurs := 1, vals := [] },
                    { id := i2, occurs := 1, vals := [] }] } ia = true := by
    rcases hu with h | h <;> simp [MatchState.used, h]
  have hub : MatchState.used
      { entries := [{ id := i1, occurs := 1, vals := [] },
                    { id := i2, occurs := 1, vals := [] }] } ib = true := by
    rcases hv with h | h <;> simp [MatchState.used, h]
  simp [finalize, applyOverrides, overrideStep, applyDefaults, defaultStep, flagDef, missingRequired,
    hasConflict, hua, hub]

end Clap.Engine

namespace Clap.Engine

theorem finalize_pair_conflict_snd (na nb : List Char) (ia ib i1 i2 : Nat)
    (hu : i1 = ia ∨ i2 = ia) (hv : i1 = ib ∨ i2 = ib) :
    finalize [flagDef na ia [], flagDef nb ib [ia]]
      { entries := [{ id := i1, occurs := 1, vals := [] },
                    { id := i2, occurs := 1, vals := [] }] } = .err .ArgumentConflict := by
  have hua : MatchState.used
      { entries := [{ id := i1, occurs := 1, vals := [] },
                    { id := i2, occurs := 1, vals := [] }] } ia = true := by
    rcases hu with h | h <;> simp [MatchState.used, h]
  have hub : MatchState.used
      { entries := [{ id := i1, occurs := 1, vals := [] },
                    { id := i2, occurs := 1, vals := [] }] } ib = true := by
    rcases hv with h | h <;> simp [MatchState.used, h]
  simp [finalize, applyOverrides, overrideStep, applyDefaults, defaultStep, flagDef, missingRequired,
    hasConflict, hua, hub]

end Clap.Engine

namespace Clap.Claims

open Clap.Engine

/-- C1: for every pair of flags (A, B) where A declares `conflicts_with(B)`,
parsing an input in which both A and B are used fails with `ArgumentConflict`,
regardless of which of the two declares the conflict and regardless of the
order the two appear on the command line.  Spec-modelled: the engine is
`Clap.Engine`. -/
theorem conflicts_with_symmetric (na nb : List Char) (ia ib : Nat)
    (hna : ¬ na.contains '=' = true) (hnb : ¬ nb.contains '=' = true)
    (hha : na.head? ≠ some '-') (hhb : nb.head? ≠ some '-')
    (hea : na ≠ []) (heb : nb ≠ [])
    (hnn : ¬ na = nb) (hids : ¬ ia = ib) :
    parseArgv [flagDef na ia [ib], flagDef nb ib []]
      [('-' :: '-' :: na), ('-' :: '-' :: nb)] = .err .ArgumentConflict ∧
    parseArgv [flagDef na ia [ib], flagDef nb ib []]
      [('-' :: '-' :: nb), ('-' :: '-' :: na)] = .err .ArgumentConflict ∧
    parseArgv [flagDef na ia [], flagDef nb ib [ia]]
      [('-' :: '-' :: na), ('-' :: '-' :: nb)] = .err .ArgumentConflict ∧
    parseArgv [flagDef na ia [], flagDef nb ib [ia]]
      [('-' :: '-' :: nb), ('-' :: '-' :: na)] = .err .ArgumentConflict := by
  have hnn' : ¬ nb = na := fun h => hnn h.symm
  have hfindA1 : [flagDef na ia [ib], flagDef nb ib []].find?
      (fun x => x.long = some na) = some (flagDef na ia [ib]) :=
    List.find?_cons_of_pos _ (by simp [flagDef])
  have hfindB1 : [flagDef na ia [ib], flagDef nb ib []].find?
      (fun x => x.long = some nb) = some (flagDef nb ib []) := by
    rw [List.find?_cons_of_neg _ (by simp [flagDef, hnn])]
    exact List.find?_cons_of_pos _ (by simp [flagDef])
  have hfindA2 : [flagDef na ia [], flagDef nb ib [ia]].find?
      (fun x => x.long = some na) = some (flagDef na ia []) :=
    List.find?_cons_of_pos _ (by simp [flagDef])
  have hfindB2 : [flagDef na ia [], flagDef nb ib [ia]].find?
      (fun x => x.long = some nb) = some (flagDef nb ib [ia]) := by
    rw [List.find?_cons_of_neg _ (by simp [flagDef, hnn])]
    exact List.find?_cons_of_pos _ (by simp [flagDef])
  refine ⟨?_, ?_, ?_, ?_⟩
  · have hpt := parse_two_flags [flagDef na ia [ib], flagDef nb ib []] na nb
      (flagDef na ia [ib]) (flagDef nb ib []) hea heb hna hnb hha hhb
      hfindA1 hfindB1 rfl rfl hids
    rw [parseArgv, hpt]
    exact finalize_pair_conflict_fst na nb ia ib _ _ (Or.inl rfl) (Or.inr rfl)
  · have hpt := parse_two_flags [flagDef na ia [ib], flagDef nb ib []] nb na
      (flagDef nb ib []) (flagDef na ia [ib]) heb hea hnb hna hhb hha
      hfindB1 hfindA1 rfl rfl (fun h => hids h.symm)
    rw [parseArgv, hpt]
    exact finalize_pair_conflict_fst na nb ia ib _ _ (Or.inr rfl) (Or.inl rfl)
  · have hpt := parse_two_flags [flagDef na ia [], flagDef nb ib [ia]] na nb
      (flagDef na ia []) (flagDef nb ib [ia]) hea heb hna hnb hha hhb
      hfindA2 hfindB2 rfl rfl hids
    rw [parseArgv, hpt]
    exact finalize_pair_conflict_snd na nb ia ib _ _ (Or.inl rfl) (Or.inr rfl)
  · have hpt := parse_two_flags [flagDef na ia [], flagDef nb ib [ia]] nb na
      (flagDef nb ib [ia]) (flagDef na ia []) heb hea hnb hna hhb hha
      hfindB2 hfindA2 rfl rfl (fun h => hids h.symm)
    rw [parseArgv, hpt]
    exact finalize_pair_conflict_snd na nb ia ib _ _ (Or.inr rfl) (Or.inl rfl)

/-- Witness for C1: flags `alpha` (declaring the conflict in the first pair of
parses) and `beta` (declaring it in the second pair), supplied in both orders,
all four parses failing with `ArgumentConflict`. -/
theorem conflicts_with_symmetric_witness :
    parseArgv [flagDef "alpha".toList 1 [2], flagDef "beta".toList 2 []]
      [('-' :: '-' :: "alpha".toList), ('-' :: '-' :: "beta".toList)] =
      .err .ArgumentConflict ∧
    parseArgv [flagDef "alpha".toList 1 [2], flagDef "beta".toList 2 []]
      [('-' :: '-' :: "beta".toList), ('-' :: '-' :: "alpha".toList)] =
      .err .ArgumentConflict ∧
    parseArgv [flagDef "alpha".toList 1 [], flagDef "beta".toList 2 [1]]
      [('-' :: '-' :: "alpha".toList), ('-' :: '-' :: "beta".toList)] =
      .err .ArgumentConflict ∧
    parseArgv [flagDef "alpha".toList 1 [], flagDef "beta".toList 2 [1]]
      [('-' :: '-' :: "beta".toList), ('-' :: '-' :: "alpha".toList)] =
      .err .ArgumentConflict :=
  conflicts_with_symmetric "alpha".toList "beta".toList 1 2
    (by decide) (by decide) (by decide) (by decide)
    (by decide) (by decide) (by decide) (by decide)

end Clap.Claims

namespace Clap.Engine

theorem any_map_id_eq (l : List MatchedArg) (f : MatchedArg → MatchedArg)
    (hf : ∀ m, (f m).id = m.id) (i : Nat) :
    (l.map f).any (fun m => m.id = i) = l.any (fun m => m.id = i) := by
  induction l with
  | nil => rfl
  | cons m l ih => simp only [List.map_cons, List.any_cons, hf, ih]

theorem used_collapseToLast (st : MatchState) (j i : Nat) :
    (st.collapseToLast j).used i = st.used i := by
  unfold MatchState.collapseToLast MatchState.used
  exact any_map_id_eq st.entries _ (fun m => by by_cases h : m.id = j <;> simp [h]) i

theorem used_erase_false (st : MatchState) (j i : Nat) (h : st.used i = false) :
    (st.erase j).used i = false := by
  unfold MatchState.erase MatchState.used at *
  rw [List.any_eq_false] at h ⊢
  intro m hm
  exact h m (List.mem_of_mem_filter hm)

theorem used_overrideStep_false (a : ArgDef) (st : MatchState) (y i : Nat)
    (h : st.used i = false) : (overrideStep a st y).used i = false := by
  unfold overrideStep
  by_cases h1 : y = a.id
  · by_cases h2 : a.multiple_occurrences <;> simp [h1, h2, used_collapseToLast, h]
  · by_cases h3 : st.used y <;> simp [h1, h3, h, used_erase_false]

theorem used_applyOverrides_false (args : List ArgDef) (st : MatchState) (i : Nat)
    (h : st.used i = false) : (applyOverrides args st).used i = false := by
  unfold applyOverrides
  induction args generalizing st with
  | nil => exact h
  | cons a args ih =>
    rw [List.foldl_cons]
    apply ih
    by_cases hu : st.used a.id
    · rw [if_pos hu]
      clear hu
      induction a.overrides generalizing st with
      | nil => exact h
      | cons y ys ihy =>
        rw [List.foldl_cons]
        exact ihy _ (used_overrideStep_false a st y i h)
    · rw [if_neg hu]
      exact h

theorem used_defaultStep_false (st : MatchState) (a : ArgDef) (i : Nat)
    (h : st.used i = false) (hd : a.id = i → a.default_value = none) :
    (defaultStep st a).used i = false := by
  unfold defaultStep
  cases hdv : a.default_value with
  | none => exact h
  | some v =>
    show (if st.used a.id = true then st
      else { entries := st.entries ++ [{ id := a.id, occurs := 0, vals := [v] }] }).used
        i = false
    by_cases hu : st.used a.id
    · rw [if_pos hu]
      exact h
    · rw [if_neg hu]
      have hne : ¬ a.id = i := by
        intro he
        rw [hd he] at hdv
        cases hdv
      unfold MatchState.used at h ⊢
      simp [List.any_append, h, hne]

theorem used_applyDefaults_false (args : List ArgDef) (st : MatchState) (i : Nat)
    (h : st.used i = false)
    (hd : ∀ a ∈ args, a.id = i → a.default_value = none) :
    (applyDefaults args st).used i = false := by
  unfold applyDefaults
  induction args generalizing st with
  | nil => exact h
  | cons a args ih =>
    rw [List.foldl_cons]
    exact ih _ (used_defaultStep_false st a i h (hd a (by simp)))
      (fun b hb => hd b (by simp [hb]))

end Clap.Engine

namespace Clap.Claims

open Clap.Engine

/-- C4: an argument marked `required(true)` with no `required_unless` rule,
absent from the parsed input and supplied by no default, makes the parse fail
with `MissingRequiredArgument`, and the one error reports every required
argument left unmet (the full `missingRequired` list), not only the first.
Spec-modelled: the engine is `Clap.Engine`. -/
theorem required_absent_fails (args : List ArgDef) (argv : List (List Char))
    (st : MatchState) (R : ArgDef)
    (hparse : parseTokens args { entries := [] } argv = .ok st)
    (hmem : R ∈ args) (hreq : R.required = true) (hunless : R.required_unless = [])
    (habsent : st.used R.id = false)
    (hdef : ∀ a ∈ args, a.id = R.id → a.default_value = none) :
    parseArgv args argv =
      .err (.MissingRequiredArgument
        (missingRequired args (applyDefaults args (applyOverrides args st)))) ∧
    R.id ∈ missingRequired args (applyDefaults args (applyOverrides args st)) := by
  have habs1 : (applyOverrides args st).used R.id = false :=
    used_applyOverrides_false args st R.id habsent
  have habs2 : (applyDefaults args (applyOverrides args st)).used R.id = false :=
    used_applyDefaults_false args _ R.id habs1 hdef
  have hmemm : R.id ∈ missingRequired args (applyDefaults args (applyOverrides args st)) := by
    unfold missingRequired
    exact List.mem_map_of_mem _
      (List.mem_filter.mpr ⟨hmem, by simp [hreq, hunless, habs2]⟩)
  refine ⟨?_, hmemm⟩
  rw [parseArgv, hparse]
  show finalize args st = _
  unfold finalize
  rw [if_pos]
  simp only [List.isEmpty_iff]
  exact List.ne_nil_of_mem hmemm

/-- Witness for C4: two required flags and an empty input; the single
`MissingRequiredArgument` error lists both ids together. -/
theorem required_absent_fails_witness :
    parseArgv [{ flagDef "out".toList 3 [] with required := true },
               { flagDef "cfg".toList 4 [] with required := true }] [] =
      .err (.MissingRequiredArgument [3, 4]) :=
  (required_absent_fails
    [{ flagDef "out".toList 3 [] with required := true },
     { flagDef "cfg".toList 4 [] with required := true }] []
    { entries := [] } { flagDef "out".toList 3 [] with required := true }
    rfl (by decide) (by decide) (by decide) (by decide) (by decide)).1

end Clap.Claims

namespace Clap.Claims

open Clap.Tok

/-- C5: a raw token starting with `--` and longer than two bytes is classified
as a long token; if it contains `=` (byte 61) it is split at the first `=`
into the key part and the inline value part, and the key is returned with all
leading hyphens (byte 45) stripped; if it contains no `=` it carries no inline
value.  The `OsStrExt2` byte helpers are modelled from the spec. -/
theorem long_token_split (t : List Nat)
    (hpre : t.take 2 = [45, 45]) (hlen : 2 < t.length) :
    classifyRaw t = .longTok ∧
    (∀ k v, t = k ++ 61 :: v → ¬ k.contains 61 = true →
      RawLong.fromRaw t = { long := k, value := some (Clap.trim_left_matches v 61) } ∧
      (RawLong.fromRaw t).key = Clap.trim_left_matches k 45) ∧
    (¬ t.contains 61 = true →
      RawLong.fromRaw t = { long := t, value := none } ∧
      (RawLong.fromRaw t).key = Clap.trim_left_matches t 45) := by
  refine ⟨?_, ?_, ?_⟩
  · unfold classifyRaw
    have hne : ¬ t = [45, 45] := by
      intro h
      rw [h] at hlen
      simp at hlen
    rw [if_neg hne, if_pos ⟨hpre, hlen⟩]
  · intro k v ht hk
    have hc : Clap.contains_byte t 61 = true := by
      rw [ht]
      exact Clap.contains_byte_append_self k v 61
    have hs : Clap.split_at_byte t 61 = (k, v) := by
      rw [ht]
      exact Clap.split_at_byte_append k v 61 hk
    constructor
    · rw [RawLong.fromRaw, if_pos hc, hs]
    · rw [RawLong.key, RawLong.fromRaw, if_pos hc, hs]
  · intro hc
    have hc' : Clap.contains_byte t 61 = false := by
      unfold Clap.contains_byte
      exact Bool.not_eq_true _ |>.mp hc
    constructor
    · rw [RawLong.fromRaw, if_neg (by simp [hc'])]
    · rw [RawLong.key, RawLong.fromRaw, if_neg (by simp [hc'])]

/-- Witness for C5: the token `--o=v` ([45,45,111,61,118]) is a long token,
splits into key part `--o` with inline value `v`, and its key strips to `o`. -/
theorem long_token_split_witness :
    classifyRaw [45, 45, 111, 61, 118] = .longTok ∧
    RawLong.fromRaw [45, 45, 111, 61, 118] =
      { long := [45, 45, 111], value := some [118] } ∧
    (RawLong.fromRaw [45, 45, 111, 61, 118]).key = [111] :=
  ⟨(long_token_split [45, 45, 111, 61, 118] (by decide) (by decide)).1,
   ((long_token_split [45, 45, 111, 61, 118] (by decide) (by decide)).2.1
     [45, 45, 111] [118] rfl (by decide)).1,
   ((long_token_split [45, 45, 111, 61, 118] (by decide) (by decide)).2.1
     [45, 45, 111] [118] rfl (by decide)).2⟩

end Clap.Claims

namespace Clap.Claims

open Clap.Fnv

/-- C7: the identity hash is deterministic and byte-wise: the hasher state
starts at the seed constant 0x811C9DC5 and each byte updates it as
`state = (state XOR byte) * 0x100000001b3` with 64-bit wrapping
multiplication; `HELP_HASH` and `VERSION_HASH` are exactly `hash "help"` and
`hash "version"` under this same function (whose concrete values are also
pinned below). -/
theorem fnv_hash_bytewise :
    MAGIC_INIT = 0x811C9DC5 ∧
    (∀ h : Nat, fnvWrite h [] = h) ∧
    (∀ (h b : Nat) (bs : List Nat),
      fnvWrite h (b :: bs) = fnvWrite (((h ^^^ b) * 0x100000001b3) % 2 ^ 64) bs) ∧
    HELP_HASH = Fnv.hash "help" ∧
    HELP_HASH = fnvWrite MAGIC_INIT (strBytes "help" ++ [0xff]) ∧
    VERSION_HASH = Fnv.hash "version" ∧
    VERSION_HASH = fnvWrite MAGIC_INIT (strBytes "version" ++ [0xff]) ∧
    HELP_HASH = 6441101378570681951 ∧
    VERSION_HASH = 3530553261377950840 :=
  ⟨rfl, fun _ => rfl, fun _ _ _ => rfl, rfl, rfl, rfl, rfl, by decide, by decide⟩

end Clap.Claims

namespace Clap.Claims

open Clap.KeyM

/-- C8: for every `Key` state reachable from `Key::new` through the setters
`short`, `long`, `index` and `hidden_long`, `is_positional` is true exactly
when a position index is set or neither a short nor a long form is set, and
`has_switch` is true exactly when a short or a long form is set. -/
theorem key_positional_iff (ops : List KeyOp) :
    ((Key.build ops).is_positional = true ↔
      ((Key.build ops).index.isSome = true ∨ ¬ (Key.build ops).has_switch = true)) ∧
    ((Key.build ops).has_switch = true ↔
      ((Key.build ops).short.isSome = true ∨ (Key.build ops).long.isSome = true)) := by
  constructor
  · simp [Key.is_positional]
  · simp [Key.has_switch]

end Clap.Claims

namespace Clap.Claims

open Clap.Grp

/-- C9: `ArgGroup::arg` panics (returns `none`) exactly when the hash of the
added name equals the group's own id, and otherwise appends the hash to the
`args` vector, preserving insertion order and leaving every other field
unchanged (the structure update touches only `args`); `ArgGroup::args` is
applying `ArgGroup::arg` to each element in order; a group really does refuse
a member with its own name. -/
theorem arggroup_arg_push (g : ArgGroup) (n : String) (ns : List String) :
    (ArgGroup.arg g n =
      if g.id = Clap.Fnv.hash n then none
      else some { g with args := g.args ++ [Clap.Fnv.hash n] }) ∧
    ArgGroup.addArgs g [] = some g ∧
    ArgGroup.addArgs g (n :: ns) =
      (ArgGroup.arg g n).bind (fun g2 => ArgGroup.addArgs g2 ns) ∧
    ArgGroup.arg (ArgGroup.new "cfg") "cfg" = none :=
  ⟨rfl, rfl, rfl, by decide⟩

end Clap.Claims

namespace Clap.Claims

open Clap.Builder

/-- C10: `Arg::value_delimiter` keeps only the first character of the supplied
string (later characters are discarded) and panics (returns `none`) exactly on
the empty string; for every `d` the configuration equals the one produced from
just `d`'s one-character prefix. -/
theorem value_delimiter_first_char (a : Arg) (d : String) :
    (Arg.value_delimiter a d = none ↔ d = "") ∧
    (∀ c rest, d.data = c :: rest →
      Arg.value_delimiter a d = some { a with val_delim := some c }) ∧
    Arg.value_delimiter a d = Arg.value_delimiter a (String.mk (d.data.take 1)) := by
  cases d with
  | mk l =>
    cases l with
    | nil =>
      refine ⟨by constructor <;> intro h <;> rfl, ?_, rfl⟩
      intro c rest h
      cases h
    | cons c cs =>
      refine ⟨?_, ?_, rfl⟩
      · constructor
        · intro h
          simp [Arg.value_delimiter] at h
        · intro h
          have h2 : String.mk (c :: cs) = String.mk [] := h
          injection h2 with h3
          cases h3
      · intro c2 rest2 h
        cases h
        rfl

end Clap.Claims

namespace Clap.Claims

/-- The engine-side definition of an option `opt` configured with
`value_delimiter(";")`: per `Arg::value_delimiter` the stored delimiter is the
first character `;`. -/
def delimOpt : Clap.Engine.ArgDef :=
  { id := 5
    long := some "opt".toList
    takes_value := true
    multiple_occurrences := false
    required := false
    required_unless := []
    conflicts := []
    overrides := []
    requires := []
    val_delim := some ';'
    default_value := none }

/-- C6: an option configured with `value_delimiter(";")` given the single
token `--opt=a;b;c` records exactly the three values `a`, `b`, `c` in
command-line order, and the stored delimiter of `delimOpt` is exactly what the
builder `Arg::value_delimiter(";")` produces.  Spec-modelled: the engine is
`Clap.Engine`. -/
theorem value_delimiter_roundtrip :
    Clap.Engine.parseArgv [delimOpt] ["--opt=a;b;c".toList] =
      .ok { entries := [{ id := 5, occurs := 1, vals := [['a'], ['b'], ['c']] }] } ∧
    Clap.Engine.MatchState.valuesOf
      { entries := [{ id := 5, occurs := 1, vals := [['a'], ['b'], ['c']] }] } 5 =
      [['a'], ['b'], ['c']] ∧
    (Clap.Builder.Arg.value_delimiter (Clap.Builder.Arg.new "opt") ";").map
      (fun a => a.val_delim) = some delimOpt.val_delim :=
  ⟨by decide, by decide, by decide⟩

end Clap.Claims
